import Mathlib

/-!
Verification of the Market-data-analyzer core (src/analytics.py and
src/data_fetcher.py) against its natural-language specification.

Numbers: the Python code computes with IEEE-754 doubles.  All inputs of
interest here are exact rationals and every operation the claims exercise is
exact, so finite values are modelled as rationals.  The special values that
numpy and pandas produce (positive and negative infinity, NaN) are modelled
explicitly by the FloatQ type below together with their IEEE propagation
rules; rounding is not modelled.  Operations that introduce an irrational
square root (volatility, Sharpe, Bollinger) are modelled over the reals, with
NaN represented by Option (none = NaN), since no infinity arises there.
-/

/-- Model of an IEEE double restricted to what this code produces: an exact
rational value, positive infinity, negative infinity, or NaN. -/
inductive FloatQ where
  | val (q : ℚ)
  | inf
  | ninf
  | nan
deriving DecidableEq

/-- IEEE negation on FloatQ. -/
def FloatQ.fneg : FloatQ → FloatQ
  | val q => val (-q)
  | inf => ninf
  | ninf => inf
  | nan => nan

/-- IEEE addition on FloatQ: NaN propagates, inf + (-inf) is NaN. -/
def FloatQ.fadd : FloatQ → FloatQ → FloatQ
  | nan, _ => nan
  | val _, nan => nan
  | inf, nan => nan
  | ninf, nan => nan
  | val a, val b => val (a + b)
  | val _, inf => inf
  | val _, ninf => ninf
  | inf, val _ => inf
  | ninf, val _ => ninf
  | inf, inf => inf
  | ninf, ninf => ninf
  | inf, ninf => nan
  | ninf, inf => nan

/-- IEEE subtraction on FloatQ. -/
def FloatQ.fsub (x y : FloatQ) : FloatQ := x.fadd y.fneg

/-- IEEE division on FloatQ (there is no negative zero among the inputs this
code produces, so x/0 follows the sign of x; 0/0 is NaN). -/
def FloatQ.fdiv : FloatQ → FloatQ → FloatQ
  | nan, _ => nan
  | val _, nan => nan
  | inf, nan => nan
  | ninf, nan => nan
  | val a, val b =>
      if b = 0 then
        if a = 0 then nan else if 0 < a then inf else ninf
      else val (a / b)
  | val _, inf => val 0
  | val _, ninf => val 0
  | inf, val b => if 0 ≤ b then inf else ninf
  | ninf, val b => if 0 ≤ b then ninf else inf
  | inf, inf => nan
  | inf, ninf => nan
  | ninf, inf => nan
  | ninf, ninf => nan

/-- IEEE strict comparison on FloatQ: any comparison with NaN is false. -/
def FloatQ.flt : FloatQ → FloatQ → Bool
  | nan, _ => false
  | val _, nan => false
  | inf, nan => false
  | ninf, nan => false
  | val a, val b => decide (a < b)
  | val _, inf => true
  | val _, ninf => false
  | inf, _ => false
  | ninf, ninf => false
  | ninf, _ => true

/-- Embedding of MarketAnalytics.compute_mean, which returns
float(np.mean(values)).  numpy computes the mean as sum divided by count; on
an empty array this is 0/0, that is NaN (numpy emits a RuntimeWarning and
returns nan — it does not raise). -/
def compute_mean (values : List ℚ) : FloatQ :=
  FloatQ.fdiv (FloatQ.val values.sum) (FloatQ.val values.length)

/-- Embedding of pandas Series.pct_change on a series of finite values:
entry 0 is NaN and entry i, for i ≥ 1, is p[i]/p[i-1] - 1 under IEEE
arithmetic. -/
def pct_change (p : List ℚ) : List FloatQ :=
  match p with
  | [] => []
  | _ :: _ =>
      FloatQ.nan ::
        List.zipWith
          (fun prev cur =>
            FloatQ.fsub (FloatQ.fdiv (FloatQ.val cur) (FloatQ.val prev)) (FloatQ.val 1))
          p p.tail

/-- Embedding of pandas Series.dropna: NaN entries are removed (infinities
are kept). -/
def dropna (l : List FloatQ) : List FloatQ :=
  l.filter (fun x => decide (x ≠ FloatQ.nan))

/-- Embedding of MarketAnalytics.compute_returns:
df[price_col].pct_change().dropna(). -/
def compute_returns (close : List ℚ) : List FloatQ :=
  dropna (pct_change close)

/-- Predicate: no element of the list is zero (used as the nonzero-close
hypothesis of C4). -/
def NoZeros (l : List ℚ) : Prop := ∀ x ∈ l, x ≠ 0

instance (l : List ℚ) : Decidable (NoZeros l) := by
  unfold NoZeros; infer_instance

/-- Helper: every element of zipWith f l₁ l₂ is f a b for some a ∈ l₁,
b ∈ l₂. -/
theorem exists_of_mem_zipWith {α β γ : Type} {f : α → β → γ} :
    ∀ {l₁ : List α} {l₂ : List β} {y : γ}, y ∈ List.zipWith f l₁ l₂ →
      ∃ a b, a ∈ l₁ ∧ b ∈ l₂ ∧ y = f a b := by
  intro l₁
  induction l₁ with
  | nil => intro l₂ y h; simp at h
  | cons a l₁ ih =>
    intro l₂ y h
    cases l₂ with
    | nil => simp at h
    | cons b l₂ =>
      simp only [List.zipWith_cons_cons, List.mem_cons] at h
      rcases h with h | h
      · exact ⟨a, b, by simp, by simp, h⟩
      · obtain ⟨a', b', ha, hb, hy⟩ := ih h
        exact ⟨a', b', by simp [ha], by simp [hb], hy⟩

/-- Helper: under the nonzero hypothesis, each pct_change body value reduces
to an exact rational. -/
theorem pct_change_zip_eq (p : List ℚ) (hnz : NoZeros p) :
    List.zipWith
        (fun prev cur =>
          FloatQ.fsub (FloatQ.fdiv (FloatQ.val cur) (FloatQ.val prev)) (FloatQ.val 1))
        p p.tail
      = List.zipWith (fun prev cur => FloatQ.val (cur / prev - 1)) p p.tail := by
  apply List.ext_getElem
  · simp [List.length_zipWith]
  · intro i h₁ h₂
    simp only [List.getElem_zipWith]
    have hlen : i < p.length := by
      simp [List.length_zipWith] at h₁; omega
    have hmem : p[i] ∈ p := List.getElem_mem hlen
    have hne : p[i] ≠ 0 := hnz _ hmem
    simp [FloatQ.fdiv, FloatQ.fsub, FloatQ.fadd, FloatQ.fneg, hne, sub_eq_add_neg]

/-- Helper: with 1 ≤ length and no zero closes, compute_returns is the
rational-valued zipWith over consecutive pairs. -/
theorem compute_returns_eq (p : List ℚ) (hlen : 1 ≤ p.length) (hnz : NoZeros p) :
    compute_returns p
      = List.zipWith (fun prev cur => FloatQ.val (cur / prev - 1)) p p.tail := by
  obtain ⟨x, xs, rfl⟩ : ∃ x xs, p = x :: xs := by
    cases p with
    | nil => simp at hlen
    | cons x xs => exact ⟨x, xs, rfl⟩
  rw [compute_returns, pct_change, pct_change_zip_eq _ hnz]
  have hdrop : ∀ l : List FloatQ, dropna (FloatQ.nan :: l) = dropna l := by
    intro l; simp [dropna]
  rw [hdrop]
  apply List.filter_eq_self.mpr
  intro a ha
  obtain ⟨prev, cur, _, _, rfl⟩ := exists_of_mem_zipWith ha
  simp

/-- Predicate: each position i of the computed return series carries exactly
close[i+1]/close[i] - 1 (position i of the output corresponds to source
index i+1, whose return the source defines). -/
def ReturnsVals (p : List ℚ) : Prop :=
  ∀ i, i + 1 < p.length →
    (compute_returns p).getD i FloatQ.nan
      = FloatQ.val (p.getD (i + 1) 0 / p.getD i 0 - 1)

/-- C4: for a close-price series of any length n ≥ 1 with nonzero closes,
compute_returns has length exactly n - 1 (in particular, a length-1 series
yields the empty return series) and its entry at each position i equals
close[i+1]/close[i] - 1 — the source point at index 0 contributes no
element: its NaN is dropped by dropna, not zero-filled. -/
theorem C4_returns_shape_and_values (p : List ℚ) (hlen : 1 ≤ p.length)
    (hnz : NoZeros p) :
    (compute_returns p).length = p.length - 1 ∧ ReturnsVals p := by
  have heq := compute_returns_eq p hlen hnz
  constructor
  · rw [heq]
    simp [List.length_zipWith]
  · intro i hi
    rw [heq]
    have hi' : i < (List.zipWith (fun prev cur => FloatQ.val (cur / prev - 1)) p p.tail).length := by
      simp [List.length_zipWith, List.length_tail]
      omega
    rw [List.getD_eq_getElem _ _ hi']
    have hip : i < p.length := by omega
    have hit : i < p.tail.length := by simp [List.length_tail]; omega
    simp only [List.getElem_zipWith]
    rw [List.getElem_tail p i hit]
    rw [List.getD_eq_getElem _ _ hi, List.getD_eq_getElem _ _ hip]

/-- C4 witness: the series [1, 2] has one return, equal to 2/1 - 1 = 1. -/
theorem C4_witness :
    1 ≤ ([1, 2] : List ℚ).length ∧ NoZeros [1, 2] ∧
      ((compute_returns [1, 2]).length = ([1, 2] : List ℚ).length - 1 ∧
        ReturnsVals [1, 2]) :=
  ⟨by decide, by decide, C4_returns_shape_and_values [1, 2] (by decide) (by decide)⟩

/-- C6 counterexample: compute_mean applied to the empty series does not fail
with an InvalidInput error — no such error exists in the code.  numpy takes
the mean of an empty array as 0/0 and returns the value NaN (with only a
RuntimeWarning), so compute_mean returns a value. -/
theorem C6_counterexample : compute_mean [] = FloatQ.nan := by decide

/-- C6 amended: compute_mean returns NaN on the empty series (it does not
fail), and returns the arithmetic mean sum/length on every non-empty
series. -/
theorem C6_amended_mean (values : List ℚ) :
    compute_mean values
      = if values.isEmpty then FloatQ.nan
        else FloatQ.val (values.sum / values.length) := by
  cases values with
  | nil => decide
  | cons x xs =>
    have h : ((xs.length : ℚ) + 1) ≠ 0 := by positivity
    simp [compute_mean, FloatQ.fdiv, h]

/-- Running maximum (pandas Series.cummax): entry i is the maximum of the
entries up to and including index i. -/
def cummax : List ℚ → List ℚ
  | [] => []
  | x :: xs => x :: (cummax xs).map (max x)

/-- Embedding of the drawdown series of MarketAnalytics.compute_max_drawdown:
(prices - prices.cummax()) / prices.cummax(), elementwise. -/
def drawdowns (p : List ℚ) : List ℚ :=
  List.zipWith (fun x m => (x - m) / m) p (cummax p)

/-- Embedding of MarketAnalytics.compute_max_drawdown: the minimum of the
drawdown series.  pandas Series.min on an empty series is NaN, modelled as
none. -/
def compute_max_drawdown (p : List ℚ) : Option ℚ :=
  (drawdowns p).min?

/-- Predicate: all entries of the list are strictly positive. -/
def PosEntries (l : List ℚ) : Prop := ∀ x ∈ l, 0 < x

instance (l : List ℚ) : Decidable (PosEntries l) := by
  unfold PosEntries; infer_instance

/-- Helper: the minimum of a non-empty rational list exists, belongs to the
list, and bounds it from below. -/
theorem minQ_spec (l : List ℚ) (hne : l ≠ []) :
    ∃ d, l.min? = some d ∧ d ∈ l ∧ ∀ b ∈ l, d ≤ b := by
  have hnone : l.min? ≠ none := by
    simpa [List.min?_eq_none_iff] using hne
  obtain ⟨d, hd⟩ := Option.ne_none_iff_exists'.mp hnone
  haveI : Std.Antisymm ((· : ℚ) ≤ ·) := ⟨fun h h' => le_antisymm h h'⟩
  have h := (List.min?_eq_some_iff (fun a => le_refl a) (fun a b => min_choice a b)
    (fun a b c => le_min_iff)).mp hd
  exact ⟨d, hd, h.1, fun b hb => h.2 b hb⟩

theorem length_cummax (p : List ℚ) : (cummax p).length = p.length := by
  induction p with
  | nil => rfl
  | cons x xs ih => simp [cummax, ih]

theorem getElem_le_cummax (p : List ℚ) (i : ℕ) (h : i < p.length)
    (h' : i < (cummax p).length) : p[i] ≤ (cummax p)[i] := by
  induction p generalizing i with
  | nil => simp at h
  | cons x xs ih =>
    cases i with
    | zero => simp [cummax]
    | succ n =>
      have hn : n < xs.length := by simpa using h
      have hn' : n < (cummax xs).length := by rw [length_cummax]; exact hn
      simp only [cummax, List.getElem_cons_succ, List.getElem_map]
      calc xs[n] ≤ (cummax xs)[n] := ih n hn hn'
        _ ≤ max x (cummax xs)[n] := le_max_right _ _

theorem cummax_pos (p : List ℚ) (hp : PosEntries p) : PosEntries (cummax p) := by
  cases p with
  | nil => intro m hm; simp [cummax] at hm
  | cons x xs =>
    intro m hm
    have hx : 0 < x := hp x (by simp)
    simp only [cummax, List.mem_cons, List.mem_map] at hm
    rcases hm with rfl | ⟨m', _, rfl⟩
    · exact hx
    · exact lt_of_lt_of_le hx (le_max_left _ _)

theorem sorted_cummax (p : List ℚ) : List.Sorted (· ≤ ·) (cummax p) := by
  induction p with
  | nil => simp [cummax]
  | cons x xs ih =>
    rw [cummax, List.sorted_cons]
    refine ⟨?_, ?_⟩
    · intro b hb
      obtain ⟨m', _, rfl⟩ := List.mem_map.mp hb
      exact le_max_left _ _
    · exact List.Pairwise.map _ (fun a b hab => max_le_max le_rfl hab) ih

theorem cummax_of_sorted (p : List ℚ) (hs : List.Sorted (· ≤ ·) p) : cummax p = p := by
  induction p with
  | nil => rfl
  | cons x xs ih =>
    rw [List.sorted_cons] at hs
    rw [cummax, ih hs.2]
    have hmap : ∀ a ∈ xs, max x a = id a := fun a ha => max_eq_right (hs.1 a ha)
    rw [List.map_congr_left hmap, List.map_id]

theorem length_drawdowns (p : List ℚ) : (drawdowns p).length = p.length := by
  simp [drawdowns, List.length_zipWith, length_cummax]

theorem drawdowns_nonpos (p : List ℚ) (hp : PosEntries p) :
    ∀ d ∈ drawdowns p, d ≤ 0 := by
  intro d hd
  rw [List.mem_iff_getElem] at hd
  obtain ⟨i, hi, rfl⟩ := hd
  have hi' : i < p.length := by
    rw [length_drawdowns] at hi; exact hi
  have him : i < (cummax p).length := by rw [length_cummax]; exact hi'
  simp only [drawdowns, List.getElem_zipWith]
  have hle : p[i] ≤ (cummax p)[i] := getElem_le_cummax p i hi' him
  have hm : 0 < (cummax p)[i] := cummax_pos p hp _ (List.getElem_mem him)
  apply div_nonpos_of_nonpos_of_nonneg
  · linarith
  · linarith

/-- C3: for every non-empty close series with all prices positive, the
maximum drawdown (by construction of the embedding, the minimum over i of
(close[i] - runningMax[i]) / runningMax[i] with runningMax the prefix
maximum) is ≤ 0, and it is 0 exactly when the series is monotonically
non-decreasing. -/
theorem C3_max_drawdown_nonpos_iff_monotone (p : List ℚ)
    (hne : p ≠ []) (hp : PosEntries p) :
    (compute_max_drawdown p).getD 1 ≤ 0 ∧
      ((compute_max_drawdown p).getD 1 = 0 ↔ List.Sorted (· ≤ ·) p) := by
  have hDne : drawdowns p ≠ [] := by
    intro h
    apply hne
    have hl := length_drawdowns p
    rw [h] at hl
    exact List.length_eq_zero.mp hl.symm
  obtain ⟨d, hd, hmem, hmin⟩ := minQ_spec _ hDne
  rw [compute_max_drawdown, hd]
  simp only [Option.getD_some]
  have hnonpos := drawdowns_nonpos p hp
  refine ⟨hnonpos d hmem, ?_, ?_⟩
  · intro hzero
    have hall : ∀ b ∈ drawdowns p, b = 0 := fun b hb =>
      le_antisymm (hnonpos b hb) (hzero ▸ hmin b hb)
    have hpt : ∀ (i : ℕ) (h1 : i < p.length) (h2 : i < (cummax p).length),
        p[i] = (cummax p)[i] := by
      intro i h1 h2
      have hdi : i < (drawdowns p).length := by rw [length_drawdowns]; exact h1
      have hb := hall _ (List.getElem_mem hdi)
      simp only [drawdowns, List.getElem_zipWith] at hb
      have hmpos : 0 < (cummax p)[i] := cummax_pos p hp _ (List.getElem_mem h2)
      rcases div_eq_zero_iff.mp hb with h | h
      · linarith [sub_eq_zero.mp h]
      · exact absurd h (ne_of_gt hmpos)
    have hpeq : p = cummax p :=
      List.ext_getElem (length_cummax p).symm (fun i h1 h2 => hpt i h1 h2)
    exact hpeq ▸ sorted_cummax p
  · intro hs
    have hc := cummax_of_sorted p hs
    have hall : ∀ b ∈ drawdowns p, b = 0 := by
      intro b hb
      rw [List.mem_iff_getElem] at hb
      obtain ⟨i, hi, rfl⟩ := hb
      simp [drawdowns, List.getElem_zipWith, hc]
    exact hall d hmem

/-- C3 witness at the concrete decreasing series [2, 1]: the drawdown minimum
is -1/2 ≤ 0 and the zero-iff-monotone equivalence is instantiated there. -/
theorem C3_witness :
    ([2, 1] : List ℚ) ≠ [] ∧ PosEntries [2, 1] ∧
      ((compute_max_drawdown [2, 1]).getD 1 ≤ 0 ∧
        ((compute_max_drawdown [2, 1]).getD 1 = 0 ↔
          List.Sorted (· ≤ ·) ([2, 1] : List ℚ))) :=
  ⟨by decide, by decide, C3_max_drawdown_nonpos_iff_monotone [2, 1] (by decide) (by decide)⟩

/-- Arithmetic mean of a rational list as numpy computes it: sum divided by
count. -/
def meanQ (l : List ℚ) : ℚ := l.sum / l.length

/-- Population variance, the square of numpy's np.std with its default
ddof = 0: mean of the squared deviations from the mean. -/
def popVarQ (l : List ℚ) : ℚ :=
  (l.map (fun x => (x - meanQ l) ^ 2)).sum / l.length

/-- Embedding of np.std with its default ddof = 0: the square root of the
population variance. -/
noncomputable def np_std (l : List ℚ) : ℝ :=
  Real.sqrt (popVarQ l)

/-- Sample variance with the Bessel correction (ddof = 1): squared deviations
divided by n - 1.  This is the quantity pandas rolling std uses per window,
and squaring the sample standard deviation named by the spec for C7 gives
exactly this. -/
def sampleVarQ (l : List ℚ) : ℚ :=
  (l.map (fun x => (x - meanQ l) ^ 2)).sum / ((l.length : ℚ) - 1)

/-- Sample standard deviation in the spec's conventional sense (ddof = 1),
written from the spec's words for the refinement comparison of C7; the
source uses np.std, embedded above, instead. -/
noncomputable def sampleStd (l : List ℚ) : ℝ :=
  Real.sqrt (sampleVarQ l)

/-- Embedding of MarketAnalytics.compute_volatility:
vol = float(np.std(returns)); if annualize then vol *= np.sqrt(252).
np.std of an empty array is NaN, modelled as none; no other special value
arises. -/
noncomputable def compute_volatility (returns : List ℚ) (annualize : Bool) : Option ℝ :=
  if returns.isEmpty then none
  else some (if annualize then np_std returns * Real.sqrt 252 else np_std returns)

/-- Embedding of MarketAnalytics.compute_sharpe_ratio: mean and std of the
returns, both scaled when annualizing, the explicit zero-std guard returning
0.0, and otherwise the quotient.  On an empty series numpy's mean and std
are NaN, the guard comparison is false, and the result is NaN: modelled as
none. -/
noncomputable def compute_sharpe (returns : List ℚ) (risk_free_rate : ℚ)
    (annualize : Bool) : Option ℝ :=
  if returns.isEmpty then none
  else
    let mean_return : ℝ := if annualize then (meanQ returns : ℝ) * 252 else (meanQ returns : ℝ)
    let std_return : ℝ := if annualize then np_std returns * Real.sqrt 252 else np_std returns
    if std_return = 0 then some 0
    else some ((mean_return - (risk_free_rate : ℝ)) / std_return)

theorem popVarQ_nonneg (l : List ℚ) : 0 ≤ popVarQ l := by
  unfold popVarQ
  apply div_nonneg
  · apply List.sum_nonneg
    intro x hx
    obtain ⟨y, _, rfl⟩ := List.mem_map.mp hx
    positivity
  · positivity

/-- C2: whenever the standard deviation of a return series is zero (such a
series is non-empty: numpy's std of an empty array is NaN, not zero),
compute_sharpe_ratio returns exactly 0.0 for any risk-free rate, with and
without annualization; the explicit guard short-circuits before any division
by the zero standard deviation. -/
theorem C2_sharpe_zero_std (r : List ℚ) (rfr : ℚ) (hne : r ≠ [])
    (hstd : np_std r = 0) :
    compute_sharpe r rfr true = some 0 ∧ compute_sharpe r rfr false = some 0 := by
  have hemp : r.isEmpty = false := by
    simpa [List.isEmpty_iff] using hne
  constructor <;> simp [compute_sharpe, hemp, hstd]

/-- C2 witness at the constant return series [5, 5] with risk-free rate
1/50. -/
theorem C2_witness :
    ([5, 5] : List ℚ) ≠ [] ∧ np_std [5, 5] = 0 ∧
      (compute_sharpe [5, 5] (1/50) true = some 0 ∧
        compute_sharpe [5, 5] (1/50) false = some 0) := by
  have hv : popVarQ [5, 5] = 0 := by
    norm_num [popVarQ, meanQ]
  have hstd : np_std [5, 5] = 0 := by
    rw [np_std, hv]
    simp
  exact ⟨by decide, hstd, C2_sharpe_zero_std [5, 5] (1/50) (by decide) hstd⟩

/-- C7 counterexample: on the return series [0, 1/10] the code returns the
population standard deviation sqrt(1/400) = 1/20 (np.std defaults to
ddof = 0, dividing by n), which is not the sample standard deviation
sqrt(1/200) (ddof = 1, dividing by n - 1) named by the claim. -/
theorem C7_counterexample :
    compute_volatility [0, 1/10] false ≠ some (sampleStd [0, 1/10]) := by
  intro h
  have h1 : np_std [0, 1/10] = sampleStd [0, 1/10] := by
    simpa [compute_volatility] using h
  have hv : popVarQ [0, 1/10] = 1/400 := by
    norm_num [popVarQ, meanQ]
  have hs : sampleVarQ [0, 1/10] = 1/200 := by
    norm_num [sampleVarQ, meanQ]
  rw [np_std, sampleStd, hv, hs] at h1
  have h2 : ((1/400 : ℚ) : ℝ) = ((1/200 : ℚ) : ℝ) :=
    (Real.sqrt_inj (by norm_num) (by norm_num)).mp h1
  norm_num at h2

/-- C7 amended: for every non-empty return series, compute_volatility with
annualize = false returns the population standard deviation of the returns
(the nonnegative real whose square is the mean squared deviation, numpy's
np.std with ddof = 0), and with annualize = true that same value multiplied
by sqrt(252). -/
theorem C7_volatility_population_std (r : List ℚ) (hne : r ≠ []) :
    (compute_volatility r false).isSome = true ∧
      0 ≤ ((compute_volatility r false).getD 0) ∧
      ((compute_volatility r false).getD 0) ^ 2 = (popVarQ r : ℝ) ∧
      compute_volatility r true
        = some (((compute_volatility r false).getD 0) * Real.sqrt 252) := by
  have hemp : r.isEmpty = false := by
    simpa [List.isEmpty_iff] using hne
  have hfalse : compute_volatility r false = some (np_std r) := by
    simp [compute_volatility, hemp]
  rw [hfalse]
  refine ⟨rfl, ?_, ?_, ?_⟩
  · simp only [Option.getD_some, np_std]
    exact Real.sqrt_nonneg _
  · simp only [Option.getD_some, np_std]
    rw [Real.sq_sqrt]
    exact_mod_cast popVarQ_nonneg r
  · simp [compute_volatility, hemp]

/-- C7 witness at the return series [0, 1/10]. -/
theorem C7_witness :
    ([0, 1/10] : List ℚ) ≠ [] ∧
      ((compute_volatility [0, 1/10] false).isSome = true ∧
        0 ≤ ((compute_volatility [0, 1/10] false).getD 0) ∧
        ((compute_volatility [0, 1/10] false).getD 0) ^ 2 = (popVarQ [0, 1/10] : ℝ) ∧
        compute_volatility [0, 1/10] true
          = some (((compute_volatility [0, 1/10] false).getD 0) * Real.sqrt 252)) :=
  ⟨by decide, C7_volatility_population_std [0, 1/10] (by decide)⟩

/-- Trailing window of length w ending at index i: entries i+1-w .. i. -/
def window (p : List ℚ) (w i : ℕ) : List ℚ := (p.drop (i + 1 - w)).take w

/-- Embedding of pandas Series.rolling(window=w).mean(): NaN (none) for the
first w-1 indices, the trailing-window mean afterwards.  pandas rejects
window = 0 outright; that case is modelled as all-undefined. -/
def rollingMeanQ (w : ℕ) (p : List ℚ) : List (Option ℚ) :=
  (List.range p.length).map
    (fun i => if i + 1 < w ∨ w = 0 then none else some (meanQ (window p w i)))

/-- Embedding of pandas Series.rolling(window=w).std() with its default
ddof = 1: NaN for the first w-1 indices, the sample standard deviation of
the trailing window afterwards.  For w = 1 each per-window variance is the
quotient 0/0, so pandas yields NaN at every index; the w ≤ 1 branch models
exactly that 0/0. -/
noncomputable def rollingStd (w : ℕ) (p : List ℚ) : List (Option ℝ) :=
  (List.range p.length).map
    (fun i =>
      if i + 1 < w ∨ w ≤ 1 then none
      else some (Real.sqrt (sampleVarQ (window p w i))))

/-- Embedding of MarketAnalytics.compute_bollinger_bands: middle is the
rolling mean, std the rolling sample standard deviation,
upper = middle + std * num_std and lower = middle - std * num_std, with NaN
(none) absorbing through the arithmetic as in pandas.  Returned in source
order (middle, upper, lower). -/
noncomputable def compute_bollinger_bands (p : List ℚ) (w : ℕ) (num_std : ℚ) :
    List (Option ℚ) × List (Option ℝ) × List (Option ℝ) :=
  let middle := rollingMeanQ w p
  let std := rollingStd w p
  let upper := List.zipWith
    (fun m s => m.bind (fun mv => s.map (fun sv => (mv : ℝ) + sv * (num_std : ℝ))))
    middle std
  let lower := List.zipWith
    (fun m s => m.bind (fun mv => s.map (fun sv => (mv : ℝ) - sv * (num_std : ℝ))))
    middle std
  (middle, upper, lower)

/-- Middle band at index i (none when undefined). -/
noncomputable def bbMid (p : List ℚ) (w : ℕ) (ns : ℚ) (i : ℕ) : Option ℚ :=
  (compute_bollinger_bands p w ns).1.getD i none

/-- Upper band at index i (none when undefined). -/
noncomputable def bbUp (p : List ℚ) (w : ℕ) (ns : ℚ) (i : ℕ) : Option ℝ :=
  (compute_bollinger_bands p w ns).2.1.getD i none

/-- Lower band at index i (none when undefined). -/
noncomputable def bbLo (p : List ℚ) (w : ℕ) (ns : ℚ) (i : ℕ) : Option ℝ :=
  (compute_bollinger_bands p w ns).2.2.getD i none

/-- Rolling standard deviation at index i (none when undefined). -/
noncomputable def stdAt (p : List ℚ) (w : ℕ) (i : ℕ) : Option ℝ :=
  (rollingStd w p).getD i none

/-- Helper: the explicit values of the three bands and the rolling std at a
defined index, for w ≥ 2. -/
theorem bb_values (p : List ℚ) (w : ℕ) (ns : ℚ) (i : ℕ)
    (hw : 2 ≤ w) (hiw : w - 1 ≤ i) (hip : i < p.length) :
    bbMid p w ns i = some (meanQ (window p w i)) ∧
    stdAt p w i = some (Real.sqrt (sampleVarQ (window p w i))) ∧
    bbUp p w ns i = some ((meanQ (window p w i) : ℝ)
        + Real.sqrt (sampleVarQ (window p w i)) * (ns : ℝ)) ∧
    bbLo p w ns i = some ((meanQ (window p w i) : ℝ)
        - Real.sqrt (sampleVarQ (window p w i)) * (ns : ℝ)) := by
  have hg1 : ¬(i + 1 < w ∨ w = 0) := by omega
  have hg2 : ¬(i + 1 < w ∨ w ≤ 1) := by omega
  have hmlen : (rollingMeanQ w p).length = p.length := by simp [rollingMeanQ]
  have hslen : (rollingStd w p).length = p.length := by simp [rollingStd]
  have hmid_el : ∀ (hh : i < (rollingMeanQ w p).length),
      (rollingMeanQ w p)[i] = some (meanQ (window p w i)) := by
    intro hh
    simp [rollingMeanQ, List.getElem_map, List.getElem_range, hg1]
  have hstd_el : ∀ (hh : i < (rollingStd w p).length),
      (rollingStd w p)[i] = some (Real.sqrt (sampleVarQ (window p w i))) := by
    intro hh
    simp [rollingStd, List.getElem_map, List.getElem_range, hg2]
  refine ⟨?_, ?_, ?_, ?_⟩
  · rw [bbMid, compute_bollinger_bands,
      List.getD_eq_getElem _ _ (by rw [hmlen]; exact hip)]
    exact hmid_el _
  · rw [stdAt, List.getD_eq_getElem _ _ (by rw [hslen]; exact hip)]
    exact hstd_el _
  · rw [bbUp, compute_bollinger_bands]
    have hzl : i < (List.zipWith
        (fun m s => m.bind (fun mv => s.map (fun sv => (mv : ℝ) + sv * (ns : ℝ))))
        (rollingMeanQ w p) (rollingStd w p)).length := by
      rw [List.length_zipWith, hmlen, hslen]; simpa using hip
    rw [List.getD_eq_getElem _ _ hzl]
    simp only [List.getElem_zipWith, hmid_el, hstd_el]
    rfl
  · rw [bbLo, compute_bollinger_bands]
    have hzl : i < (List.zipWith
        (fun m s => m.bind (fun mv => s.map (fun sv => (mv : ℝ) - sv * (ns : ℝ))))
        (rollingMeanQ w p) (rollingStd w p)).length := by
      rw [List.length_zipWith, hmlen, hslen]; simpa using hip
    rw [List.getD_eq_getElem _ _ hzl]
    simp only [List.getElem_zipWith, hmid_el, hstd_el]
    rfl

/-- C10 amended: for every close series, every window w ≥ 2, and every
num_std ≥ 0, at every in-range index i ≥ w-1 the three bands are defined and
satisfy lower ≤ middle ≤ upper, and lower = upper (all three coinciding)
holds exactly when num_std = 0 or the rolling standard deviation at i is 0.
(The original claim fails at w = 1, where pandas rolling std — and hence
both outer bands — is NaN at every index, and at num_std = 0, where the
bands coincide although the rolling std is nonzero.) -/
theorem C10_bollinger_band_order (p : List ℚ) (w : ℕ) (num_std : ℚ) (i : ℕ)
    (hw : 2 ≤ w) (hns : 0 ≤ num_std) (hiw : w - 1 ≤ i) (hip : i < p.length) :
    (bbMid p w num_std i).isSome = true ∧
    (bbUp p w num_std i).isSome = true ∧
    (bbLo p w num_std i).isSome = true ∧
    ((bbLo p w num_std i).getD 0 ≤ ((bbMid p w num_std i).getD 0 : ℝ) ∧
      ((bbMid p w num_std i).getD 0 : ℝ) ≤ (bbUp p w num_std i).getD 0) ∧
    ((bbLo p w num_std i).getD 0 = (bbUp p w num_std i).getD 0
      ↔ (num_std = 0 ∨ (stdAt p w i).getD 0 = 0)) := by
  obtain ⟨hm, hs, hu, hl⟩ := bb_values p w num_std i hw hiw hip
  rw [hm, hs, hu, hl]
  set m : ℚ := meanQ (window p w i)
  set s : ℝ := Real.sqrt (sampleVarQ (window p w i))
  have hs0 : 0 ≤ s := Real.sqrt_nonneg _
  have hns' : (0 : ℝ) ≤ (num_std : ℝ) := by exact_mod_cast hns
  have hx : 0 ≤ s * (num_std : ℝ) := mul_nonneg hs0 hns'
  refine ⟨rfl, rfl, rfl, ⟨?_, ?_⟩, ?_⟩
  · simp only [Option.getD_some]
    linarith
  · simp only [Option.getD_some]
    linarith
  · simp only [Option.getD_some]
    constructor
    · intro h
      have hzero : s * (num_std : ℝ) = 0 := by linarith
      rcases mul_eq_zero.mp hzero with h' | h'
      · exact Or.inr h'
      · exact Or.inl (by exact_mod_cast h')
    · intro h
      rcases h with h | h
      · rw [h]
        norm_num
      · rw [h]
        ring

/-- C10 witness at the series [1, 2], window 2, num_std = 2, index 1. -/
theorem C10_witness :
    2 ≤ 2 ∧ (0 : ℚ) ≤ 2 ∧ 2 - 1 ≤ 1 ∧ 1 < ([1, 2] : List ℚ).length ∧
      ((bbMid [1, 2] 2 2 1).isSome = true ∧
       (bbUp [1, 2] 2 2 1).isSome = true ∧
       (bbLo [1, 2] 2 2 1).isSome = true ∧
       ((bbLo [1, 2] 2 2 1).getD 0 ≤ ((bbMid [1, 2] 2 2 1).getD 0 : ℝ) ∧
         ((bbMid [1, 2] 2 2 1).getD 0 : ℝ) ≤ (bbUp [1, 2] 2 2 1).getD 0) ∧
       ((bbLo [1, 2] 2 2 1).getD 0 = (bbUp [1, 2] 2 2 1).getD 0
         ↔ ((2 : ℚ) = 0 ∨ (stdAt [1, 2] 2 1).getD 0 = 0))) :=
  ⟨by norm_num, by norm_num, by norm_num, by norm_num,
    C10_bollinger_band_order [1, 2] 2 2 1 (by norm_num) (by norm_num)
      (by norm_num) (by norm_num)⟩

/-- C10 counterexample: the claim fails as stated for two reasons.  With
w = 1 (allowed by the claim) the upper band is NaN at index 0 even though
index 0 ≥ w-1 counts as defined: pandas rolling std with window 1 is the
0/0 quotient NaN.  And with num_std = 0 (allowed by the claim) on [1, 2] at
index 1 the upper and lower bands coincide although the rolling standard
deviation there is sqrt(1/2) ≠ 0, contradicting the claimed equivalence. -/
theorem C10_counterexample :
    bbUp [10] 1 2 0 = none ∧
      (bbUp [1, 2] 2 0 1 = bbLo [1, 2] 2 0 1 ∧
        bbUp [1, 2] 2 0 1 ≠ none ∧
        (stdAt [1, 2] 2 1).getD 0 ≠ 0) := by
  have hv : sampleVarQ (window [1, 2] 2 1) = 1/2 := by
    norm_num [window, sampleVarQ, meanQ]
  have hsq : Real.sqrt (sampleVarQ (window [1, 2] 2 1)) ≠ 0 := by
    rw [hv]
    have : (0 : ℝ) < Real.sqrt ((1/2 : ℚ) : ℝ) := Real.sqrt_pos.mpr (by norm_num)
    linarith
  obtain ⟨hm, hs, hu, hl⟩ := bb_values [1, 2] 2 0 1 (by norm_num) (by norm_num) (by norm_num)
  refine ⟨?_, ?_, ?_, ?_⟩
  · rfl
  · rw [hu, hl]
    norm_num
  · rw [hu]
    simp
  · rw [hs]
    simpa using hsq

/-- Embedding of pandas Series.diff on the close prices: NaN at index 0, the
exact difference p[i] - p[i-1] afterwards. -/
def rsiDelta (p : List ℚ) : List FloatQ :=
  match p with
  | [] => []
  | _ :: _ =>
      FloatQ.nan :: List.zipWith (fun prev cur => FloatQ.val (cur - prev)) p p.tail

/-- Embedding of delta.where(delta > 0, 0): keep each positive delta, replace
everything else by 0 — the index-0 NaN compares false against 0, so it too
becomes 0. -/
def rsiGains (p : List ℚ) : List FloatQ :=
  (rsiDelta p).map (fun d => if FloatQ.flt (FloatQ.val 0) d then d else FloatQ.val 0)

/-- Embedding of (-delta.where(delta < 0, 0)): keep each negative delta,
replace everything else (including the index-0 NaN) by 0, then negate. -/
def rsiLosses (p : List ℚ) : List FloatQ :=
  (rsiDelta p).map
    (fun d => FloatQ.fneg (if FloatQ.flt d (FloatQ.val 0) then d else FloatQ.val 0))

/-- Mean of a list of IEEE values: NaN-propagating sum divided by count. -/
def fmeanList (l : List FloatQ) : FloatQ :=
  FloatQ.fdiv (l.foldr FloatQ.fadd (FloatQ.val 0)) (FloatQ.val l.length)

/-- Trailing window over an IEEE-valued series. -/
def windowF (l : List FloatQ) (w i : ℕ) : List FloatQ := (l.drop (i + 1 - w)).take w

/-- Embedding of Series.rolling(window=w).mean() over an IEEE-valued series:
NaN for the first w-1 indices (and for window 0, which pandas rejects), the
trailing-window mean afterwards. -/
def rollingMeanF (w : ℕ) (l : List FloatQ) : List FloatQ :=
  (List.range l.length).map
    (fun i => if i + 1 < w ∨ w = 0 then FloatQ.nan else fmeanList (windowF l w i))

/-- Embedding of MarketAnalytics.compute_rsi: delta, gains and losses as
above, rs = gain/loss as an unguarded IEEE division, and
rsi = 100 - 100/(1 + rs). -/
def compute_rsi (p : List ℚ) (w : ℕ) : List FloatQ :=
  (List.zipWith FloatQ.fdiv (rollingMeanF w (rsiGains p)) (rollingMeanF w (rsiLosses p))).map
    (fun rs =>
      FloatQ.fsub (FloatQ.val 100) (FloatQ.fdiv (FloatQ.val 100) (FloatQ.fadd (FloatQ.val 1) rs)))

theorem length_rsiDelta (p : List ℚ) : (rsiDelta p).length = p.length := by
  cases p with
  | nil => rfl
  | cons x xs => simp [rsiDelta, List.length_zipWith]

theorem length_rollingMeanF (w : ℕ) (l : List FloatQ) :
    (rollingMeanF w l).length = l.length := by
  simp [rollingMeanF]

/-- C5 amended: at any index where the rolling average loss is exactly 0 and
the rolling average gain is a positive value (as on a strictly increasing
series), compute_rsi yields exactly 100: the unguarded IEEE division gives
rs = gain/0 = +inf and 100 - 100/(1 + inf) = 100.  (The division is not
guarded explicitly in the source; when the rolling average gain is also 0 —
a constant window — rs is the 0/0 NaN and the RSI is NaN, not 100, which is
the counterexample to the original claim.) -/
theorem C5_rsi_saturates_at_100 (p : List ℚ) (w i : ℕ) (g : ℚ)
    (hw : 1 ≤ w) (hwi : w ≤ i) (hi : i < p.length)
    (hg : (rollingMeanF w (rsiGains p)).getD i FloatQ.nan = FloatQ.val g)
    (hgpos : 0 < g)
    (hl : (rollingMeanF w (rsiLosses p)).getD i FloatQ.nan = FloatQ.val 0) :
    (compute_rsi p w).getD i FloatQ.nan = FloatQ.val 100 := by
  have hlg : (rollingMeanF w (rsiGains p)).length = p.length := by
    simp [length_rollingMeanF, rsiGains, length_rsiDelta]
  have hll : (rollingMeanF w (rsiLosses p)).length = p.length := by
    simp [length_rollingMeanF, rsiLosses, length_rsiDelta]
  have hzl : i < (List.zipWith FloatQ.fdiv (rollingMeanF w (rsiGains p))
      (rollingMeanF w (rsiLosses p))).length := by
    rw [List.length_zipWith, hlg, hll]
    simpa using hi
  have hml : i < ((List.zipWith FloatQ.fdiv (rollingMeanF w (rsiGains p))
      (rollingMeanF w (rsiLosses p))).map
      (fun rs =>
        FloatQ.fsub (FloatQ.val 100)
          (FloatQ.fdiv (FloatQ.val 100) (FloatQ.fadd (FloatQ.val 1) rs)))).length := by
    simpa using hzl
  rw [compute_rsi, List.getD_eq_getElem _ _ hml]
  have hb1 : i < (rollingMeanF w (rsiGains p)).length := by omega
  have hb2 : i < (rollingMeanF w (rsiLosses p)).length := by omega
  have hg' : (rollingMeanF w (rsiGains p))[i] = FloatQ.val g := by
    rw [← List.getD_eq_getElem _ FloatQ.nan hb1]
    exact hg
  have hl' : (rollingMeanF w (rsiLosses p))[i] = FloatQ.val 0 := by
    rw [← List.getD_eq_getElem _ FloatQ.nan hb2]
    exact hl
  simp only [List.getElem_map, List.getElem_zipWith, hg', hl']
  have hdiv : FloatQ.fdiv (FloatQ.val g) (FloatQ.val 0) = FloatQ.inf := by
    have h1 : ¬(g = 0) := ne_of_gt hgpos
    simp [FloatQ.fdiv, h1, hgpos]
  rw [hdiv]
  norm_num [FloatQ.fsub, FloatQ.fadd, FloatQ.fdiv, FloatQ.fneg]

/-- C5 witness: on the strictly increasing series [1, 2, 3] with window 1,
index 1 the rolling average gain is 1 > 0, the rolling average loss is 0,
and the RSI is exactly 100. -/
theorem C5_witness :
    1 ≤ 1 ∧ 1 ≤ 1 ∧ 1 < ([1, 2, 3] : List ℚ).length ∧
      (rollingMeanF 1 (rsiGains [1, 2, 3])).getD 1 FloatQ.nan = FloatQ.val 1 ∧
      (0 : ℚ) < 1 ∧
      (rollingMeanF 1 (rsiLosses [1, 2, 3])).getD 1 FloatQ.nan = FloatQ.val 0 ∧
      (compute_rsi [1, 2, 3] 1).getD 1 FloatQ.nan = FloatQ.val 100 := by
  have hg : (rollingMeanF 1 (rsiGains [1, 2, 3])).getD 1 FloatQ.nan = FloatQ.val 1 := by
    norm_num [rollingMeanF, rsiGains, rsiDelta, windowF, fmeanList,
      FloatQ.flt, FloatQ.fadd, FloatQ.fdiv, FloatQ.fneg, List.range_succ]
  have hl : (rollingMeanF 1 (rsiLosses [1, 2, 3])).getD 1 FloatQ.nan = FloatQ.val 0 := by
    norm_num [rollingMeanF, rsiLosses, rsiDelta, windowF, fmeanList,
      FloatQ.flt, FloatQ.fadd, FloatQ.fdiv, FloatQ.fneg, List.range_succ]
  exact ⟨le_refl 1, le_refl 1, by norm_num, hg, by norm_num, hl,
    C5_rsi_saturates_at_100 [1, 2, 3] 1 1 1 (le_refl 1) (le_refl 1) (by norm_num)
      hg (by norm_num) hl⟩

/-- C5 counterexample: on the constant series [10, 10] with window 1, at the
defined index 1 (which is ≥ w) the rolling average loss is exactly 0, yet
compute_rsi yields NaN, not 100: the source divides gain/loss without any
guard, and 0/0 is NaN, which propagates through 100 - 100/(1 + NaN).  So the
claim that the division is guarded explicitly and RSI is exactly 100
whenever the average loss is 0 fails. -/
theorem C5_counterexample :
    (rollingMeanF 1 (rsiLosses [10, 10])).getD 1 FloatQ.nan = FloatQ.val 0 ∧
      (compute_rsi [10, 10] 1).getD 1 FloatQ.nan = FloatQ.nan ∧
      FloatQ.nan ≠ FloatQ.val 100 := by
  refine ⟨?_, ?_, by decide⟩
  · norm_num [rollingMeanF, rsiLosses, rsiDelta, windowF, fmeanList,
      FloatQ.flt, FloatQ.fadd, FloatQ.fdiv, FloatQ.fneg, List.range_succ]
  · norm_num [compute_rsi, rollingMeanF, rsiGains, rsiLosses, rsiDelta, windowF, fmeanList,
      FloatQ.flt, FloatQ.fadd, FloatQ.fdiv, FloatQ.fneg, FloatQ.fsub, List.range_succ]

/-- Abstract model of the numpy global random generator seeded in
MarketDataFetcher.__init__: the seed determines an unbounded stream of raw
draws and the generator state is the position in that stream.  Every variate
the source draws is a deterministic function of consecutive raw draws; the
bit-level distribution of MT19937 is irrelevant to the claims settled here,
which quantify over all streams. -/
structure Rng where
  stream : ℕ → ℚ
  pos : ℕ

/-- Consume n raw draws and advance the state. -/
def Rng.drawN (g : Rng) (n : ℕ) : List ℚ × Rng :=
  ((List.range n).map (fun i => g.stream (g.pos + i)), { g with pos := g.pos + n })

/-- One np.random.uniform(a, b) variate from one raw draw, as an affine map
of the draw. -/
def uniformDraw (a b u : ℚ) : ℚ := a + (b - a) * u

/-- One np.random.randint(lo, hi) variate from one raw draw (the exact
integer quantization numpy applies does not matter to the claims settled
here, only that the volume is a deterministic function of the draw). -/
def randintDraw (lo hi u : ℚ) : ℤ := Int.floor (lo + (hi - lo) * u)

/-- Cumulative sums (np.cumsum): entry i is the sum of the first i+1
entries. -/
def cumsum : List ℚ → List ℚ
  | [] => []
  | x :: xs => x :: (cumsum xs).map (fun s => x + s)

/-- Day-granularity model of the clock: a time is an integer day count, with
day 0 a Thursday (as at the Unix epoch), so Saturday and Sunday are residues
2 and 3 mod 7. -/
def isBday (d : ℤ) : Bool :=
  if d.emod 7 = 2 ∨ d.emod 7 = 3 then false else true

/-- Roll a day forward to the next business day if it falls on a weekend. -/
def rollForward (d : ℤ) : ℤ :=
  if isBday d then d else if isBday (d + 1) then d + 1 else d + 2

/-- The business day strictly after d. -/
def nextBday (d : ℤ) : ℤ := rollForward (d + 1)

/-- Embedding of the date computation of generate_stock_prices:
start_date = datetime.now() - timedelta(days=days), then
pd.date_range(start_date, periods=days, freq=B), the start rolled forward
to a business day and then successive business days. -/
def businessDates (now : ℤ) (days : ℕ) : List ℤ :=
  (List.range days).map (fun i => nextBday^[i] (rollForward (now - days)))

/-- One output row of generate_stock_prices (Date, Symbol, Open, High, Low,
Close, Volume). -/
structure Row where
  date : ℤ
  symbol : String
  «open» : ℝ
  high : ℝ
  low : ℝ
  close : ℝ
  volume : ℤ

/-- Assemble one row from date, preliminary open/high/low jittered prices,
close and volume, applying the source's final enforcement
High = max(Open, High, Close), Low = min(Open, Low, Close) rowwise. -/
def mkRow (symbol : String) : ℤ × ℝ × ℝ × ℝ × ℝ × ℤ → Row
  | (d, o, h0, l0, c, v) =>
    { date := d, symbol := symbol, «open» := o,
      high := max o (max h0 c), low := min o (min l0 c),
      close := c, volume := v }

/-- Pack the seven columns into rows. -/
def buildRows (symbol : String) (dates : List ℤ) (opens highs0 lows0 closes : List ℝ)
    (vols : List ℤ) : List Row :=
  (dates.zip (opens.zip (highs0.zip (lows0.zip (closes.zip vols))))).map (mkRow symbol)

/-- Embedding of MarketDataFetcher.generate_stock_prices.  The clock
(datetime.now()) is an explicit input now; the five blocks of draws (normal
returns, open jitter, high jitter, low jitter, volume) consume the stream in
source order; closes are initial_price * exp(cumsum(returns)) with the
normal variates modelled as drift + volatility * raw draw; the preliminary
Open/High/Low columns carry the uniform jitters of the source and the final
High/Low enforcement happens in mkRow. -/
noncomputable def generate_stock_prices (g : Rng) (symbol : String) (days : ℕ)
    (initial_price drift volatility : ℚ) (now : ℤ) : List Row × Rng :=
  let dates := businessDates now days
  let t1 := g.drawN days
  let rets := t1.1.map (fun z => drift + volatility * z)
  let closes : List ℝ := (cumsum rets).map (fun s => (initial_price : ℝ) * Real.exp s)
  let t2 := t1.2.drawN days
  let opens := List.zipWith
    (fun (c : ℝ) (u : ℚ) => c * (1 + (uniformDraw (-5/1000) (5/1000) u : ℝ))) closes t2.1
  let t3 := t2.2.drawN days
  let highs0 := List.zipWith
    (fun (c : ℝ) (u : ℚ) => c * (1 + |(uniformDraw 0 (1/100) u : ℝ)|)) closes t3.1
  let t4 := t3.2.drawN days
  let lows0 := List.zipWith
    (fun (c : ℝ) (u : ℚ) => c * (1 - |(uniformDraw 0 (1/100) u : ℝ)|)) closes t4.1
  let t5 := t4.2.drawN days
  let vols := t5.1.map (fun u => randintDraw 1000000 10000000 u)
  (buildRows symbol dates opens highs0 lows0 closes vols, t5.2)

/-- Helper: every assembled row satisfies the OHLC bounds by construction. -/
theorem mkRow_ohlc (symbol : String) (t : ℤ × ℝ × ℝ × ℝ × ℝ × ℤ) :
    (mkRow symbol t).low ≤ min (mkRow symbol t).«open» (mkRow symbol t).close ∧
      max (mkRow symbol t).«open» (mkRow symbol t).close ≤ (mkRow symbol t).high := by
  obtain ⟨d, o, h0, l0, c, v⟩ := t
  simp only [mkRow]
  constructor
  · exact le_min (min_le_left _ _)
      (le_trans (min_le_right _ _) (min_le_right _ _))
  · exact max_le (le_max_left _ _)
      (le_trans (le_max_right h0 c) (le_max_right o _))

/-- Predicate: every row of the list satisfies the OHLC invariant
low ≤ min(open, close) and high ≥ max(open, close). -/
def OhlcOk (rows : List Row) : Prop :=
  ∀ r ∈ rows, r.low ≤ min r.«open» r.close ∧ max r.«open» r.close ≤ r.high

/-- C1: every row of every series produced by generate_stock_prices — for
every generator state, every symbol, all day counts and all parameter
values, so in particular for positive days, initial_price > 0 and
volatility ≥ 0 — satisfies the OHLC invariant low ≤ min(open, close) and
high ≥ max(open, close): the source forces High = max(Open, High, Close)
and Low = min(Open, Low, Close) rowwise after generating the jittered
columns. -/
theorem C1_ohlc_invariant (g : Rng) (symbol : String) (days : ℕ)
    (initial_price drift volatility : ℚ) (now : ℤ) :
    OhlcOk (generate_stock_prices g symbol days initial_price drift volatility now).1 := by
  intro r hr
  simp only [generate_stock_prices, buildRows] at hr
  obtain ⟨t, _, rfl⟩ := List.mem_map.mp hr
  exact mkRow_ohlc symbol t

/-- Predicate: all close prices in the rows are strictly positive. -/
def ClosePos (rows : List Row) : Prop := ∀ r ∈ rows, 0 < r.close

/-- C8: with initial_price > 0, every close of every generated series is
strictly positive whatever the drift and volatility parameters (and whatever
the raw draws): close[i] = initial_price * exp(cumsum(variates)[i]) and exp
is everywhere positive. -/
theorem C8_close_positive (g : Rng) (symbol : String) (days : ℕ)
    (initial_price drift volatility : ℚ) (now : ℤ)
    (hip : 0 < initial_price) :
    ClosePos (generate_stock_prices g symbol days initial_price drift volatility now).1 := by
  intro r hr
  simp only [generate_stock_prices, buildRows] at hr
  obtain ⟨t, ht, rfl⟩ := List.mem_map.mp hr
  obtain ⟨d, o, h0, l0, c, v⟩ := t
  have h1 := (List.of_mem_zip ht).2
  have h2 := (List.of_mem_zip h1).2
  have h3 := (List.of_mem_zip h2).2
  have h4 := (List.of_mem_zip h3).2
  have hc := (List.of_mem_zip h4).1
  obtain ⟨s, _, rfl⟩ := List.mem_map.mp hc
  have hip' : (0 : ℝ) < (initial_price : ℝ) := by exact_mod_cast hip
  simpa [mkRow] using mul_pos hip' (Real.exp_pos s)

/-- Fixed generator state used by the concrete instances below: the all-zero
stream at position 0. -/
def constRng : Rng := ⟨fun _ => 0, 0⟩

/-- C8 witness: the one-day series from the all-zero stream with
initial_price 100 (and zero drift and volatility). -/
theorem C8_witness :
    (0 : ℚ) < 100 ∧ ClosePos (generate_stock_prices constRng "TEST" 1 100 0 0 0).1 :=
  ⟨by norm_num, C8_close_positive constRng "TEST" 1 100 0 0 0 (by norm_num)⟩

/-- Arguments of one generate_stock_prices call. -/
structure CallArgs where
  symbol : String
  days : ℕ
  initial_price : ℚ
  drift : ℚ
  volatility : ℚ

/-- A sequence of calls against one fetcher instance: each call consumes the
shared generator state in order, all runs taken at one clock time. -/
noncomputable def runCalls (g : Rng) (now : ℤ) : List CallArgs → List (List Row)
  | [] => []
  | a :: rest =>
      (generate_stock_prices g a.symbol a.days a.initial_price a.drift a.volatility now).1 ::
        runCalls
          (generate_stock_prices g a.symbol a.days a.initial_price a.drift a.volatility now).2
          now rest

/-- The non-Date content of a row: Symbol, Open, High, Low, Close, Volume. -/
def rowData (r : Row) : String × ℝ × ℝ × ℝ × ℝ × ℤ :=
  (r.symbol, r.«open», r.high, r.low, r.close, r.volume)

theorem length_businessDates (now : ℤ) (days : ℕ) :
    (businessDates now days).length = days := by
  simp [businessDates]

/-- Helper: packing touches the dates only through the Date field, so the
non-Date content agrees for any two date columns of equal length. -/
theorem buildRows_rowData_eq (symbol : String) (d₁ d₂ : List ℤ)
    (opens highs0 lows0 closes : List ℝ) (vols : List ℤ)
    (hlen : d₁.length = d₂.length) :
    (buildRows symbol d₁ opens highs0 lows0 closes vols).map rowData
      = (buildRows symbol d₂ opens highs0 lows0 closes vols).map rowData := by
  apply List.ext_getElem
  · simp [buildRows, List.length_zip, hlen]
  · intro i h1 h2
    simp only [buildRows, List.getElem_map, List.getElem_zip]
    rfl

/-- Helper: neither the non-Date columns nor the final generator state
depend on the clock. -/
theorem generate_clock_free (g : Rng) (symbol : String) (days : ℕ)
    (ip dr vol : ℚ) (now₁ now₂ : ℤ) :
    (generate_stock_prices g symbol days ip dr vol now₁).1.map rowData
        = (generate_stock_prices g symbol days ip dr vol now₂).1.map rowData ∧
      (generate_stock_prices g symbol days ip dr vol now₁).2
        = (generate_stock_prices g symbol days ip dr vol now₂).2 := by
  constructor
  · simp only [generate_stock_prices]
    exact buildRows_rowData_eq _ _ _ _ _ _ _ _
      (by rw [length_businessDates, length_businessDates])
  · rfl

/-- C9 amended: with the seeded generator state and the clock made explicit,
two runs with equal states and identical call sequences produce identical
output whenever they are made at the same clock time; and independently of
the clock, the Symbol, Open, High, Low, Close and Volume content coincides.
The Date column however is derived from datetime.now(), so two runs at
different times differ in Date (see the counterexample) — which is what the
original bit-for-bit claim misses. -/
theorem C9_same_seed_reproducibility (g₁ g₂ : Rng) (now₁ now₂ : ℤ)
    (cs₁ cs₂ : List CallArgs) (hg : g₁ = g₂) (hc : cs₁ = cs₂) :
    (now₁ = now₂ → runCalls g₁ now₁ cs₁ = runCalls g₂ now₂ cs₂) ∧
      (runCalls g₁ now₁ cs₁).map (List.map rowData)
        = (runCalls g₂ now₂ cs₂).map (List.map rowData) := by
  subst hg
  subst hc
  refine ⟨fun h => by rw [h], ?_⟩
  induction cs₁ generalizing g₁ with
  | nil => rfl
  | cons a rest ih =>
    simp only [runCalls, List.map_cons]
    have hcf := generate_clock_free g₁ a.symbol a.days a.initial_price a.drift
      a.volatility now₁ now₂
    rw [hcf.1, hcf.2, ih]

/-- C9 witness: the all-zero stream, a single call, equal clocks. -/
theorem C9_witness :
    constRng = constRng ∧
      ([⟨"A", 1, 100, 0, 0⟩] : List CallArgs) = [⟨"A", 1, 100, 0, 0⟩] ∧
      (((0 : ℤ) = 0 → runCalls constRng 0 [⟨"A", 1, 100, 0, 0⟩]
          = runCalls constRng 0 [⟨"A", 1, 100, 0, 0⟩]) ∧
        (runCalls constRng 0 [⟨"A", 1, 100, 0, 0⟩]).map (List.map rowData)
          = (runCalls constRng 0 [⟨"A", 1, 100, 0, 0⟩]).map (List.map rowData)) :=
  ⟨rfl, rfl, C9_same_seed_reproducibility constRng constRng 0 0 _ _ rfl rfl⟩

/-- C9 counterexample: the same seed state issued the same single-call
sequence at two different clock times (day 0 and day 7) produces different
Date columns, so the output is not bit-for-bit identical including Date:
datetime.now() enters the date computation.  (All non-Date columns do agree
across the two runs, per the amended theorem.) -/
theorem C9_counterexample :
    (runCalls constRng 0 [⟨"A", 1, 100, 0, 0⟩]).map (List.map Row.date)
      ≠ (runCalls constRng 7 [⟨"A", 1, 100, 0, 0⟩]).map (List.map Row.date) := by
  decide
